import Mathlib

/-!
Verification development for the timekeeper UI (src/src/App.tsx).

The embedding models:
- JS numbers as `Option ℚ` (`none` plays the role of `NaN`);
- JS `parseFloat` as an executable prefix parser into `Option ℚ`;
- JS `Date` values at day granularity as civil dates (`CivilDate`),
  with the date-fns operations `startOfMonth`, `lastDayOfMonth`,
  `add {months}` / `sub {months}` (day-clamping semantics);
- Unix timestamps as `Int` seconds; `TZ_OFFSET_SEC` is an explicit
  parameter `off` (it equals `getTimezoneOffset() * 60`, i.e. UTC minus
  local, in seconds);
- the React component state as `AppState`, every network call as a
  `Request` value, and the awaited submit flow as a three-phase machine.
-/

/-- A JS number: `none` stands for `NaN`, `some q` for the real value `q`
(floats are idealised as rationals). -/
abbrev JSNum := Option ℚ

/-- JS `x > 0` on a number: false on `NaN`. -/
def jsGtZero (x : JSNum) : Bool :=
  match x with
  | some q => decide (0 < q)
  | none => false

/-- JS `x >= 0` on a number: false on `NaN`. -/
def jsNonneg (x : JSNum) : Bool :=
  match x with
  | some q => decide (0 ≤ q)
  | none => false

/-- Longest prefix of decimal digits, with the rest of the input. -/
def takeDigits : List Char → List Char × List Char
  | [] => ([], [])
  | c :: cs =>
    if c.isDigit then
      let p := takeDigits cs
      (c :: p.1, p.2)
    else
      ([], c :: cs)

/-- Value of a digit string read in base 10. -/
def digitsToNat (ds : List Char) : Nat :=
  ds.foldl (fun a c => 10 * a + (c.toNat - 48)) 0

/-- Unsigned decimal significand `digits [. digits]` (at least one digit
somewhere). Its value is `mantissa / 10 ^ fracLen`; the parser returns
`(mantissa, fracLen)` and the unconsumed input. -/
def parseUnsigned (cs : List Char) : Option ((Nat × Nat) × List Char) :=
  let ip := takeDigits cs
  match ip.2 with
  | '.' :: rest =>
    let fp := takeDigits rest
    if ip.1 = [] ∧ fp.1 = [] then none
    else some ((digitsToNat ip.1 * 10 ^ fp.1.length + digitsToNat fp.1, fp.1.length), fp.2)
  | _ => if ip.1 = [] then none else some ((digitsToNat ip.1, 0), ip.2)

/-- Optional exponent part `(e|E) [+|-] digits`; an `e` not followed by a
digit is not consumed (exponent 0), matching JS longest-valid-prefix. -/
def parseExponent (cs : List Char) : Int :=
  match cs with
  | 'e' :: rest =>
    match rest with
    | '+' :: rest2 => if (takeDigits rest2).1 = [] then 0 else (digitsToNat (takeDigits rest2).1 : Int)
    | '-' :: rest2 => if (takeDigits rest2).1 = [] then 0 else -(digitsToNat (takeDigits rest2).1 : Int)
    | _ => if (takeDigits rest).1 = [] then 0 else (digitsToNat (takeDigits rest).1 : Int)
  | 'E' :: rest =>
    match rest with
    | '+' :: rest2 => if (takeDigits rest2).1 = [] then 0 else (digitsToNat (takeDigits rest2).1 : Int)
    | '-' :: rest2 => if (takeDigits rest2).1 = [] then 0 else -(digitsToNat (takeDigits rest2).1 : Int)
    | _ => if (takeDigits rest).1 = [] then 0 else (digitsToNat (takeDigits rest).1 : Int)
  | _ => 0

/-- Unsigned magnitude with optional exponent:
`mantissa * 10 ^ (exponent - fracLen)` as one normalised rational. -/
def parseMagnitude (cs : List Char) : JSNum :=
  match parseUnsigned cs with
  | none => none
  | some ((m, fl), rest) =>
    let e : Int := parseExponent rest - (fl : Int)
    if 0 ≤ e then some (mkRat ((m * 10 ^ e.toNat : Nat) : Int) 1)
    else some (mkRat (m : Int) (10 ^ (-e).toNat))

/-- Model of JS `parseFloat` on the character list: optional sign, then
significand and exponent; `NaN` (`none`) when no numeric prefix exists.
Leading whitespace and `Infinity` are not modelled (an HTML number input
never holds either). -/
def parseFloatChars (cs : List Char) : JSNum :=
  match cs with
  | '-' :: rest => (parseMagnitude rest).map (fun q => -q)
  | '+' :: rest => parseMagnitude rest
  | _ => parseMagnitude cs

/-- Model of JS `parseFloat` on a string. -/
def parseFloat (s : String) : JSNum := parseFloatChars s.data

/-- A civil (Gregorian) calendar date; JS `Date` values in this app are
always local midnights, so day granularity suffices. -/
structure CivilDate where
  year : Int
  month : Nat
  day : Nat
deriving DecidableEq, Repr

/-- Gregorian leap-year test. -/
def isLeapYear (y : Int) : Bool :=
  y % 4 == 0 && (y % 100 != 0 || y % 400 == 0)

/-- Length of a month (month is 1-based). -/
def daysInMonth (y : Int) (m : Nat) : Nat :=
  match m with
  | 1 => 31
  | 2 => if isLeapYear y then 29 else 28
  | 3 => 31
  | 4 => 30
  | 5 => 31
  | 6 => 30
  | 7 => 31
  | 8 => 31
  | 9 => 30
  | 10 => 31
  | 11 => 30
  | 12 => 31
  | _ => 30

/-- The date is an actual calendar date. -/
def CivilDate.Valid (d : CivilDate) : Prop :=
  1 ≤ d.month ∧ d.month ≤ 12 ∧ 1 ≤ d.day ∧ d.day ≤ daysInMonth d.year d.month

instance (d : CivilDate) : Decidable d.Valid := by
  unfold CivilDate.Valid
  infer_instance

/-- date-fns `startOfMonth`. -/
def startOfMonth (d : CivilDate) : CivilDate := ⟨d.year, d.month, 1⟩

/-- date-fns `lastDayOfMonth`. -/
def lastDayOfMonth (d : CivilDate) : CivilDate := ⟨d.year, d.month, daysInMonth d.year d.month⟩

/-- date-fns `add d {months: n}` / `sub` (negative `n`): month arithmetic
with the day clamped into the target month. -/
def addMonths (d : CivilDate) (n : Int) : CivilDate :=
  let t : Int := d.year * 12 + (d.month : Int) - 1 + n
  let y := t / 12
  let m := (t % 12).toNat + 1
  ⟨y, m, min d.day (daysInMonth y m)⟩

/-- Days from the Unix epoch (1970-01-01) to the given civil date
(Hinnant's `days_from_civil`); embeds the day-arithmetic JS `Date` does. -/
def civilToDays (d : CivilDate) : Int :=
  let y : Int := if d.month ≤ 2 then d.year - 1 else d.year
  let era : Int := y / 400
  let yoe : Int := y - era * 400
  let mp : Int := ((d.month : Int) + 9) % 12
  let doy : Int := (153 * mp + 2) / 5 + (d.day : Int) - 1
  let doe : Int := yoe * 365 + yoe / 4 - yoe / 100 + doy
  era * 146097 + doe - 719468

/-- Unix seconds of 00:00:00 UTC of a civil day: the canonical day
identity the server stores. -/
def utcMidnightUnix (d : CivilDate) : Int := 86400 * civilToDays d

/-- Unix seconds of local midnight of a civil day, for timezone offset
`off` = `getTimezoneOffset() * 60` (UTC minus local, seconds): the value
`getUnixTime` returns for the `Date` the calendar hands the app. -/
def localMidnightUnix (d : CivilDate) (off : Int) : Int := utcMidnightUnix d + off

/-- `locToUtcUnix` from App.tsx: local-midnight Unix seconds to the
canonical UTC-midnight identity, subtracting the offset. -/
def locToUtcUnix (localUnix : Int) (off : Int) : Int := localUnix - off

/-- The canonical-to-local direction used in `bothDates` and friends:
`fromUnixTime(d.date + TZ_OFFSET_SEC)`, adding the offset. -/
def utcToLocUnix (utcUnix : Int) (off : Int) : Int := utcUnix + off

/-- Canonical identity of a local calendar day: `locToUtcUnix` applied to
its local midnight. -/
def canonicalOfLocalDay (d : CivilDate) (off : Int) : Int :=
  locToUtcUnix (localMidnightUnix d off) off

/-- The `DateInfo` record of App.tsx: canonical date plus logged values. -/
structure DateInfo where
  date : Int
  hours : JSNum
  miles : JSNum
deriving DecidableEq, Repr

/-- The React component state of `App` that the claims speak about
(`datesStart`, `datesEnd`, `dateInfoUtc`, `selectedDate`, and the two
text fields). -/
structure AppState where
  datesStart : CivilDate
  datesEnd : CivilDate
  dateInfoUtc : List DateInfo
  selectedDate : Option CivilDate
  hours : String
  miles : String
deriving DecidableEq, Repr

/-- A network request the app can issue: `apiFetchDateInfo`,
`apiDeleteDateInfo` or `apiSetDateInfo`. -/
inductive Request where
  | fetchInfo (fromUtc toUtc : Int)
  | deleteInfo (dateUtc : Int)
  | setInfo (info : DateInfo)
deriving DecidableEq, Repr

/-- Whether a request is a range fetch. -/
def requestIsFetch : Request → Bool
  | .fetchInfo _ _ => true
  | _ => false

/-- The `.hours > 0 && .miles > 0` filter of `bothDates`, mapped to local
timestamps (`fromUnixTime(d.date + TZ_OFFSET_SEC)`). -/
def bothDates (l : List DateInfo) (off : Int) : List Int :=
  (l.filter (fun d => jsGtZero d.hours && jsGtZero d.miles)).map
    (fun d => utcToLocUnix d.date off)

/-- The `.hours > 0` filter of `hoursDates`, mapped to local timestamps. -/
def hoursDates (l : List DateInfo) (off : Int) : List Int :=
  (l.filter (fun d => jsGtZero d.hours)).map (fun d => utcToLocUnix d.date off)

/-- The `.miles > 0` filter of `milesDates`, mapped to local timestamps. -/
def milesDates (l : List DateInfo) (off : Int) : List Int :=
  (l.filter (fun d => jsGtZero d.miles)).map (fun d => utcToLocUnix d.date off)

/-- The submit button's `disabled` prop:
`selectedDate === undefined || !miles || !hours`. -/
def submitDisabled (st : AppState) : Bool :=
  st.selectedDate.isNone || st.miles == "" || st.hours == ""

/-- The mutation `handleSubmit` issues for the selected day `sel`:
delete when both parsed fields are `=== 0`, otherwise a `POST` upsert
carrying the parsed values. -/
def submitMutation (st : AppState) (sel : CivilDate) (off : Int) : Request :=
  let hFloat := parseFloat st.hours
  let mFloat := parseFloat st.miles
  if hFloat = some 0 ∧ mFloat = some 0 then
    .deleteInfo (canonicalOfLocalDay sel off)
  else
    .setInfo ⟨canonicalOfLocalDay sel off, parseFloat st.hours, parseFloat st.miles⟩

/-- A click on the submit button: a disabled button fires no handler, so
no request of any kind is produced; an enabled one runs `handleSubmit`,
whose first await is the mutation request. -/
def submitClick (st : AppState) (off : Int) : Option Request :=
  if submitDisabled st then none
  else
    match st.selectedDate with
    | some sel => some (submitMutation st sel off)
    | none => none

/-- Modelled from the spec: the remote store behind the external API is
not under src/; §6 gives its contract. `POST /` "upserts the record for
that canonical date": replace in place when the date is present,
otherwise append. -/
def storeUpsert (s : List DateInfo) (i : DateInfo) : List DateInfo :=
  if s.any (fun r => r.date == i.date) then
    s.map (fun r => if r.date == i.date then i else r)
  else
    s ++ [i]

/-- Modelled from the spec: `DELETE /?date=` "removes the record for that
canonical date, if present" (§6). -/
def storeDelete (s : List DateInfo) (dt : Int) : List DateInfo :=
  s.filter (fun r => r.date != dt)

/-- Modelled from the spec: effect of one request on the remote store
(§6); a `GET` leaves the store unchanged. -/
def applyRequest (s : List DateInfo) : Request → List DateInfo
  | .deleteInfo dt => storeDelete s dt
  | .setInfo i => storeUpsert s i
  | .fetchInfo _ _ => s

/-- Phase of the awaited `handleSubmit` body: before the mutation's
response, before the refresh fetch's response, or finished. -/
inductive SubmitPhase where
  | awaitingMutation
  | awaitingRefresh
  | finished
deriving DecidableEq, Repr

/-- State of one run of `handleSubmit`, decomposed at its await points:
the component state, the phase, and the request currently in flight. -/
structure SubmitFlow where
  phase : SubmitPhase
  app : AppState
  pending : Option Request
deriving DecidableEq, Repr

/-- Entering `handleSubmit`: the mutation request goes out; nothing else
changes. -/
def submitStart (st : AppState) (sel : CivilDate) (off : Int) : SubmitFlow :=
  ⟨.awaitingMutation, st, some (submitMutation st sel off)⟩

/-- The mutation's response arrives: only now is the refresh fetch for
the current visible range issued; the cache is still untouched. -/
def submitMutationDone (f : SubmitFlow) (off : Int) : SubmitFlow :=
  ⟨.awaitingRefresh, f.app,
    some (.fetchInfo (canonicalOfLocalDay f.app.datesStart off)
                     (canonicalOfLocalDay f.app.datesEnd off))⟩

/-- The refresh fetch's response arrives: `setDateInfoUtc` replaces the
cache with it. -/
def submitRefreshDone (f : SubmitFlow) (resp : List DateInfo) : SubmitFlow :=
  ⟨.finished, { f.app with dateInfoUtc := resp }, none⟩

/-- The component state after a whole `handleSubmit` run whose refresh
fetch returned `resp`. -/
def runSubmitFlow (st : AppState) (sel : CivilDate) (off : Int)
    (resp : List DateInfo) : AppState :=
  (submitRefreshDone (submitMutationDone (submitStart st sel off) off) resp).app

/-- `handleMonthChange m`: range bounds move to `m` and
`lastDayOfMonth(add(m, {months: 1}))`, and the fetch for the new
canonical range replaces the cache with its response. -/
def handleMonthChange (st : AppState) (m : CivilDate) (off : Int)
    (resp : List DateInfo) : AppState × Request :=
  let ds := m
  let de := lastDayOfMonth (addMonths m 1)
  ({ st with datesStart := ds, datesEnd := de, dateInfoUtc := resp },
    .fetchInfo (canonicalOfLocalDay ds off) (canonicalOfLocalDay de off))

/-- Initial `datesStart`: `startOfMonth(sub(new Date(), {months: 1}))`. -/
def initialDatesStart (today : CivilDate) : CivilDate :=
  startOfMonth (addMonths today (-1))

/-- Initial `datesEnd`: `lastDayOfMonth(new Date())`. -/
def initialDatesEnd (today : CivilDate) : CivilDate := lastDayOfMonth today

/-- The mount-time fetch of the initial visible range. -/
def initialFetchRequest (today : CivilDate) (off : Int) : Request :=
  .fetchInfo (canonicalOfLocalDay (initialDatesStart today) off)
             (canonicalOfLocalDay (initialDatesEnd today) off)

/-- Spec-worded comparator: the first day of the month before `d`. -/
def specFirstOfPrevMonth (d : CivilDate) : CivilDate :=
  if d.month = 1 then ⟨d.year - 1, 12, 1⟩ else ⟨d.year, d.month - 1, 1⟩

/-- Spec-worded comparator: the last day of the month after `d`. -/
def specLastOfNextMonth (d : CivilDate) : CivilDate :=
  if d.month = 12 then ⟨d.year + 1, 1, 31⟩
  else ⟨d.year, d.month + 1, daysInMonth d.year (d.month + 1)⟩

/-- The value held by an HTML `type='number'` input: the browser
sanitises it to the empty string whenever it is not a valid
floating-point number, so it is empty or parses. -/
def numberFieldOk (s : String) : Prop := s = "" ∨ (parseFloat s).isSome = true

/-- Whether a request carries only non-negative logged values (vacuously
true for deletes and fetches). -/
def requestNonneg : Request → Bool
  | .setInfo i => jsNonneg i.hours && jsNonneg i.miles
  | _ => true

/-- Concrete day used by the witnesses. -/
def sampleDay : CivilDate := ⟨2024, 3, 10⟩

/-- Concrete record list used by the witnesses. -/
def sampleInfos : List DateInfo := [⟨100, some 8, some 60⟩, ⟨200, some 0, some 5⟩]

/-- Concrete state with both fields reading zero. -/
def zeroFieldState : AppState :=
  ⟨⟨2024, 2, 1⟩, ⟨2024, 3, 31⟩, [], some sampleDay, "0", "0.00"⟩

/-- Concrete state with non-zero fields. -/
def filledState : AppState :=
  ⟨⟨2024, 2, 1⟩, ⟨2024, 3, 31⟩, [], some sampleDay, "8", "60"⟩

/-- Concrete state with a negative hours field. -/
def negFieldState : AppState :=
  ⟨⟨2024, 2, 1⟩, ⟨2024, 3, 31⟩, [], some sampleDay, "-1", "5"⟩

/-- C1: the translator between local-midnight timestamps and canonical
UTC-midnight timestamps is a lossless round trip for every fixed offset:
`toLocal (toCanonical d) = d`, `toCanonical (toLocal u) = u`, and with
offset 0 both directions are the identity. -/
theorem tz_round_trip (d u off : Int) :
    utcToLocUnix (locToUtcUnix d off) off = d ∧
    locToUtcUnix (utcToLocUnix u off) off = u ∧
    locToUtcUnix d 0 = d ∧
    utcToLocUnix u 0 = u := by
  unfold utcToLocUnix locToUtcUnix
  omega

/-- C3: a local day is in the "both" set iff some cached record for it
has hours > 0 and miles > 0; in the "hours" set iff its record has
hours > 0 (regardless of miles); in the "miles" set iff miles > 0; and
the sets are not mutually exclusive: every "both" day also appears in
the "hours" and "miles" sets. -/
theorem classification_sets (l : List DateInfo) (off : Int) :
    (∀ x, x ∈ bothDates l off ↔
      ∃ d, d ∈ l ∧ jsGtZero d.hours = true ∧ jsGtZero d.miles = true ∧
        x = utcToLocUnix d.date off) ∧
    (∀ x, x ∈ hoursDates l off ↔
      ∃ d, d ∈ l ∧ jsGtZero d.hours = true ∧ x = utcToLocUnix d.date off) ∧
    (∀ x, x ∈ milesDates l off ↔
      ∃ d, d ∈ l ∧ jsGtZero d.miles = true ∧ x = utcToLocUnix d.date off) ∧
    (∀ x, x ∈ bothDates l off → x ∈ hoursDates l off ∧ x ∈ milesDates l off) := by
  refine ⟨?_, ?_, ?_, ?_⟩
  · intro x
    simp only [bothDates, List.mem_map, List.mem_filter, Bool.and_eq_true]
    aesop
  · intro x
    simp only [hoursDates, List.mem_map, List.mem_filter]
    aesop
  · intro x
    simp only [milesDates, List.mem_map, List.mem_filter]
    aesop
  · intro x
    simp only [bothDates, hoursDates, milesDates, List.mem_map, List.mem_filter,
      Bool.and_eq_true]
    aesop

/-- C3 witness: in the concrete record list, the day of the record with
hours 8 and miles 60 is in the "both" set, hence also in the "hours" and
"miles" sets. -/
theorem classification_sets_witness :
    100 ∈ hoursDates sampleInfos 0 ∧ 100 ∈ milesDates sampleInfos 0 :=
  (classification_sets sampleInfos 0).2.2.2 100 (by decide)

/-- C6: the submit flow is strictly ordered at its await points: while
the mutation is in flight the pending request is the mutation (never a
fetch) and the cache is untouched; the refresh fetch for the current
visible range is issued only once the mutation's response has arrived,
with the cache still untouched; and the cache is replaced by the refresh
response only when that refresh completes. -/
theorem submit_sequencing (st : AppState) (sel : CivilDate) (off : Int)
    (resp : List DateInfo) :
    (submitStart st sel off).phase = SubmitPhase.awaitingMutation ∧
    (submitStart st sel off).pending = some (submitMutation st sel off) ∧
    requestIsFetch (submitMutation st sel off) = false ∧
    (submitStart st sel off).app.dateInfoUtc = st.dateInfoUtc ∧
    (submitMutationDone (submitStart st sel off) off).phase = SubmitPhase.awaitingRefresh ∧
    (submitMutationDone (submitStart st sel off) off).pending =
      some (Request.fetchInfo (canonicalOfLocalDay st.datesStart off)
                              (canonicalOfLocalDay st.datesEnd off)) ∧
    (submitMutationDone (submitStart st sel off) off).app.dateInfoUtc = st.dateInfoUtc ∧
    (submitRefreshDone (submitMutationDone (submitStart st sel off) off) resp).app.dateInfoUtc
      = resp := by
  refine ⟨rfl, rfl, ?_, rfl, rfl, rfl, rfl, rfl⟩
  by_cases h : parseFloat st.hours = some 0 ∧ parseFloat st.miles = some 0 <;>
    simp [submitMutation, h, requestIsFetch]

/-- C10: a whole submit run leaves the visible-range bounds and the
selected day unchanged; only the cached record set is replaced (by the
refresh response). -/
theorem submit_frame (st : AppState) (sel : CivilDate) (off : Int)
    (resp : List DateInfo) :
    (runSubmitFlow st sel off resp).datesStart = st.datesStart ∧
    (runSubmitFlow st sel off resp).datesEnd = st.datesEnd ∧
    (runSubmitFlow st sel off resp).selectedDate = st.selectedDate ∧
    (runSubmitFlow st sel off resp).dateInfoUtc = resp :=
  ⟨rfl, rfl, rfl, rfl⟩

/-- C2: with a day selected, a submit whose parsed fields are both 0
issues a delete for the day's canonical identity — after which the store
holds no record for that date — and any other submit issues an upsert
carrying the day's canonical identity and the parsed values. -/
theorem submit_dispatch (st : AppState) (sel : CivilDate) (off : Int)
    (store : List DateInfo) :
    ((parseFloat st.hours = some 0 ∧ parseFloat st.miles = some 0) →
      submitMutation st sel off = Request.deleteInfo (canonicalOfLocalDay sel off) ∧
      ∀ r ∈ applyRequest store (submitMutation st sel off),
        r.date ≠ canonicalOfLocalDay sel off) ∧
    (¬(parseFloat st.hours = some 0 ∧ parseFloat st.miles = some 0) →
      submitMutation st sel off =
        Request.setInfo
          ⟨canonicalOfLocalDay sel off, parseFloat st.hours, parseFloat st.miles⟩) := by
  constructor
  · intro h
    have hmut : submitMutation st sel off =
        Request.deleteInfo (canonicalOfLocalDay sel off) := by
      simp [submitMutation, h.1, h.2]
    refine ⟨hmut, ?_⟩
    intro r hr
    rw [hmut] at hr
    simp only [applyRequest, storeDelete, List.mem_filter, bne_iff_ne, ne_eq] at hr
    exact hr.2
  · intro h
    simp [submitMutation, h]

/-- C2 witness: with fields "0" and "0.00" the concrete submit issues the
delete, and the store afterwards has no record with that canonical date. -/
theorem submit_dispatch_witness :
    submitMutation zeroFieldState sampleDay 3600 =
      Request.deleteInfo (canonicalOfLocalDay sampleDay 3600) ∧
    ∀ r ∈ applyRequest sampleInfos (submitMutation zeroFieldState sampleDay 3600),
      r.date ≠ canonicalOfLocalDay sampleDay 3600 :=
  (submit_dispatch zeroFieldState sampleDay 3600 sampleInfos).1 ⟨by decide, by decide⟩

/-- C5: under the number-input field contract (each field is empty or
holds a parsable number), the submit button is enabled exactly when a day
is selected and both fields parse; and whenever it is disabled, a click
produces no request of any kind. -/
theorem submit_gate (st : AppState) (off : Int)
    (hh : numberFieldOk st.hours) (hm : numberFieldOk st.miles) :
    (submitDisabled st = false ↔
      st.selectedDate.isSome = true ∧
      (parseFloat st.hours).isSome = true ∧
      (parseFloat st.miles).isSome = true) ∧
    (submitDisabled st = true → submitClick st off = none) := by
  have hempty : ∀ s : String, s = "" → (parseFloat s).isSome = true → False := by
    intro s hs hp
    rw [hs] at hp
    exact absurd hp (by decide)
  constructor
  · constructor
    · intro hd
      unfold submitDisabled at hd
      simp only [Bool.or_eq_false_iff, beq_eq_false_iff_ne, ne_eq] at hd
      obtain ⟨⟨h1, h2⟩, h3⟩ := hd
      refine ⟨?_, ?_, ?_⟩
      · cases hsel : st.selectedDate with
        | none => rw [hsel] at h1; simp at h1
        | some v => simp
      · rcases hh with h | h
        · exact absurd h h3
        · exact h
      · rcases hm with h | h
        · exact absurd h h2
        · exact h
    · rintro ⟨h1, h2, h3⟩
      unfold submitDisabled
      simp only [Bool.or_eq_false_iff, beq_eq_false_iff_ne, ne_eq]
      refine ⟨⟨?_, fun he => hempty _ he h3⟩, fun he => hempty _ he h2⟩
      cases hsel : st.selectedDate with
      | none => rw [hsel] at h1; simp at h1
      | some v => simp
  · intro hd
    simp [submitClick, hd]

/-- C5 witness: the concrete filled state (day selected, fields "8" and
"60") is enabled exactly per the gate. -/
theorem submit_gate_witness :
    submitDisabled filledState = false ↔
      filledState.selectedDate.isSome = true ∧
      (parseFloat filledState.hours).isSome = true ∧
      (parseFloat filledState.miles).isSome = true :=
  (submit_gate filledState 0 (Or.inr (by decide)) (Or.inr (by decide))).1

/-- C7 counterexample: the field contents "-1" / "5" satisfy the
submit-enabled condition, yet the issued upsert carries hours = -1 < 0:
the claimed non-negativity invariant fails on the code. -/
theorem submit_nonneg_cx :
    submitDisabled negFieldState = false ∧
    requestNonneg (submitMutation negFieldState sampleDay 0) = false := by
  decide

/-- C7 amended: submit passes the parsed field values through unchanged,
so the upsert carries non-negative hours and miles whenever the parsed
field contents are non-negative (the code itself enforces no sign
check). -/
theorem submit_nonneg_amended (st : AppState) (sel : CivilDate) (off : Int)
    (hq mq : ℚ)
    (hh : parseFloat st.hours = some hq) (hm : parseFloat st.miles = some mq)
    (h0 : 0 ≤ hq) (m0 : 0 ≤ mq) :
    requestNonneg (submitMutation st sel off) = true := by
  by_cases h : parseFloat st.hours = some 0 ∧ parseFloat st.miles = some 0
  · simp [submitMutation, h, requestNonneg]
  · simp only [submitMutation, if_neg h]
    simp [requestNonneg, jsNonneg, hh, hm, h0, m0]

/-- C7 amended witness: fields "8" / "60" parse to 8 and 60, and the
issued upsert carries non-negative values. -/
theorem submit_nonneg_amended_witness :
    requestNonneg (submitMutation filledState sampleDay 0) = true :=
  submit_nonneg_amended filledState sampleDay 0 8 60 (by decide) (by decide)
    (by decide) (by decide)

/-- Adding one month and taking its last day lands on the last day of
the following calendar month. -/
theorem lastDayOfMonth_addMonths_one (d : CivilDate)
    (h1 : 1 ≤ d.month) (h2 : d.month ≤ 12) :
    lastDayOfMonth (addMonths d 1) = specLastOfNextMonth d := by
  unfold lastDayOfMonth addMonths specLastOfNextMonth
  by_cases h12 : d.month = 12
  · have e1 : (d.year * 12 + (d.month : Int) - 1 + 1) / 12 = d.year + 1 := by omega
    have e2 : ((d.year * 12 + (d.month : Int) - 1 + 1) % 12).toNat = 0 := by omega
    simp only [e1, e2, if_pos h12]
    simp [daysInMonth]
  · have e1 : (d.year * 12 + (d.month : Int) - 1 + 1) / 12 = d.year := by omega
    have e2 : ((d.year * 12 + (d.month : Int) - 1 + 1) % 12).toNat = d.month := by omega
    simp only [e1, e2, if_neg h12]

/-- Subtracting one month and taking its first day lands on the first
day of the previous calendar month. -/
theorem startOfMonth_subMonth (d : CivilDate)
    (h1 : 1 ≤ d.month) (h2 : d.month ≤ 12) :
    startOfMonth (addMonths d (-1)) = specFirstOfPrevMonth d := by
  unfold startOfMonth addMonths specFirstOfPrevMonth
  by_cases hjan : d.month = 1
  · have e1 : (d.year * 12 + (d.month : Int) - 1 + -1) / 12 = d.year - 1 := by omega
    have e2 : ((d.year * 12 + (d.month : Int) - 1 + -1) % 12).toNat = 11 := by omega
    simp only [e1, e2, if_pos hjan]
  · have e1 : (d.year * 12 + (d.month : Int) - 1 + -1) / 12 = d.year := by omega
    have e2 : ((d.year * 12 + (d.month : Int) - 1 + -1) % 12).toNat = d.month - 2 := by
      omega
    simp only [e1, e2, if_neg hjan]
    have : d.month - 2 + 1 = d.month - 1 := by omega
    rw [this]

/-- Converting a local midnight to canonical form yields exactly the
UTC midnight of the same civil day. -/
theorem canonicalOfLocalDay_eq (d : CivilDate) (off : Int) :
    canonicalOfLocalDay d off = utcMidnightUnix d := by
  unfold canonicalOfLocalDay locToUtcUnix localMidnightUnix
  omega

/-- C4: for a month value `m` (the first-of-month date the calendar's
month-change callback passes), `handleMonthChange` sets the range start
to the first day of that month and the range end to the last day of the
following month, issues the fetch for exactly those bounds converted to
canonical identities, and replaces the cached records with the fetch
response regardless of what was cached before. -/
theorem month_change_spec (st : AppState) (m : CivilDate) (off : Int)
    (resp : List DateInfo) (hv : m.Valid) (hfirst : m.day = 1) :
    (handleMonthChange st m off resp).1.datesStart = startOfMonth m ∧
    (handleMonthChange st m off resp).1.datesEnd = specLastOfNextMonth m ∧
    (handleMonthChange st m off resp).2 =
      Request.fetchInfo
        (utcMidnightUnix (handleMonthChange st m off resp).1.datesStart)
        (utcMidnightUnix (handleMonthChange st m off resp).1.datesEnd) ∧
    (handleMonthChange st m off resp).1.dateInfoUtc = resp := by
  obtain ⟨hm1, hm2, _, _⟩ := hv
  have hlast : lastDayOfMonth (addMonths m 1) = specLastOfNextMonth m :=
    lastDayOfMonth_addMonths_one m hm1 hm2
  refine ⟨?_, hlast, ?_, rfl⟩
  · show m = startOfMonth m
    unfold startOfMonth
    cases m
    simp_all
  · show Request.fetchInfo (canonicalOfLocalDay m off)
        (canonicalOfLocalDay (lastDayOfMonth (addMonths m 1)) off) = _
    rw [canonicalOfLocalDay_eq, canonicalOfLocalDay_eq]
    rfl

/-- C4 witness: changing the visible month to March 2024 on the concrete
state sets the bounds to 2024-03-01 and 2024-04-30 and replaces the
cache with the response. -/
theorem month_change_spec_witness :
    (handleMonthChange zeroFieldState ⟨2024, 3, 1⟩ 0 sampleInfos).1.datesStart =
      startOfMonth ⟨2024, 3, 1⟩ ∧
    (handleMonthChange zeroFieldState ⟨2024, 3, 1⟩ 0 sampleInfos).1.datesEnd =
      specLastOfNextMonth ⟨2024, 3, 1⟩ ∧
    (handleMonthChange zeroFieldState ⟨2024, 3, 1⟩ 0 sampleInfos).2 =
      Request.fetchInfo
        (utcMidnightUnix (handleMonthChange zeroFieldState ⟨2024, 3, 1⟩ 0 sampleInfos).1.datesStart)
        (utcMidnightUnix (handleMonthChange zeroFieldState ⟨2024, 3, 1⟩ 0 sampleInfos).1.datesEnd) ∧
    (handleMonthChange zeroFieldState ⟨2024, 3, 1⟩ 0 sampleInfos).1.dateInfoUtc = sampleInfos :=
  month_change_spec zeroFieldState ⟨2024, 3, 1⟩ 0 sampleInfos (by decide) rfl

/-- C9: the mount-time fetch covers the first day of the previous month
through the last day of the current month, both as canonical UTC-midnight
identities. -/
theorem initial_fetch_range (today : CivilDate) (off : Int) (hv : today.Valid) :
    initialDatesStart today = specFirstOfPrevMonth today ∧
    initialDatesEnd today = lastDayOfMonth today ∧
    initialFetchRequest today off =
      Request.fetchInfo (utcMidnightUnix (specFirstOfPrevMonth today))
                        (utcMidnightUnix (lastDayOfMonth today)) := by
  obtain ⟨h1, h2, _, _⟩ := hv
  have hs : initialDatesStart today = specFirstOfPrevMonth today :=
    startOfMonth_subMonth today h1 h2
  refine ⟨hs, rfl, ?_⟩
  unfold initialFetchRequest initialDatesEnd
  rw [hs, canonicalOfLocalDay_eq, canonicalOfLocalDay_eq]

/-- C9 witness: on 2024-03-10 the initial fetch covers 2024-02-01 through
2024-03-31 in canonical identities. -/
theorem initial_fetch_range_witness :
    initialDatesStart sampleDay = specFirstOfPrevMonth sampleDay ∧
    initialDatesEnd sampleDay = lastDayOfMonth sampleDay ∧
    initialFetchRequest sampleDay (-7200) =
      Request.fetchInfo (utcMidnightUnix (specFirstOfPrevMonth sampleDay))
                        (utcMidnightUnix (lastDayOfMonth sampleDay)) :=
  initial_fetch_range sampleDay (-7200) (by decide)

/-- An upsert leaves the upserted record in the store. -/
theorem storeUpsert_mem (s : List DateInfo) (i : DateInfo) : i ∈ storeUpsert s i := by
  unfold storeUpsert
  split
  · rename_i h
    rw [List.any_eq_true] at h
    obtain ⟨r, hr, hdate⟩ := h
    rw [List.mem_map]
    exact ⟨r, hr, by simp [hdate]⟩
  · simp

/-- After an upsert of `i`, replacing by date once more changes nothing:
each record of the store is fixed by the replacement function. -/
theorem storeUpsert_fixed (s : List DateInfo) (i : DateInfo) :
    ∀ r ∈ storeUpsert s i, (if r.date == i.date then i else r) = r := by
  unfold storeUpsert
  split
  · intro r hr
    rw [List.mem_map] at hr
    obtain ⟨r0, _, hr0⟩ := hr
    subst hr0
    by_cases hc : (r0.date == i.date) = true <;> simp [hc]
  · rename_i h
    intro r hr
    rw [List.mem_append] at hr
    rcases hr with hr | hr
    · have hc : ¬(r.date == i.date) = true := by
        intro hc
        exact absurd (List.any_eq_true.mpr ⟨r, hr, hc⟩) h
      simp [hc]
    · simp only [List.mem_singleton] at hr
      subst hr
      simp

/-- Upserting the same record twice equals upserting it once. -/
theorem storeUpsert_idem (s : List DateInfo) (i : DateInfo) :
    storeUpsert (storeUpsert s i) i = storeUpsert s i := by
  have hfix := storeUpsert_fixed s i
  have hmem := storeUpsert_mem s i
  obtain ⟨u, hu⟩ : ∃ u, storeUpsert s i = u := ⟨_, rfl⟩
  rw [hu] at hfix hmem ⊢
  have hany : u.any (fun r => r.date == i.date) = true :=
    List.any_eq_true.mpr ⟨i, hmem, by simp⟩
  unfold storeUpsert
  rw [if_pos hany]
  calc u.map (fun r => if r.date == i.date then i else r)
      = u.map id := List.map_congr_left hfix
    _ = u := List.map_id u

/-- In the replace branch of an upsert over a date-unique store, exactly
one record afterwards carries the upserted date. -/
theorem replace_filter_length (t : List DateInfo) (i : DateInfo)
    (hnd : (t.map (fun r => r.date)).Nodup)
    (h : t.any (fun r => r.date == i.date) = true) :
    ((t.map (fun r => if r.date == i.date then i else r)).filter
        (fun r => r.date == i.date)).length = 1 := by
  induction t with
  | nil => simp at h
  | cons a t ih =>
    rw [List.map_cons, List.nodup_cons] at hnd
    obtain ⟨ha, ht⟩ := hnd
    rw [List.map_cons, List.filter_cons]
    by_cases hc : (a.date == i.date) = true
    · have hhead : ((if a.date == i.date then i else a) : DateInfo) = i := if_pos hc
      have htail : (t.map (fun r => if r.date == i.date then i else r)).filter
          (fun r => r.date == i.date) = [] := by
        rw [List.filter_eq_nil_iff]
        intro r hr
        rw [List.mem_map] at hr
        obtain ⟨r0, hr0, hr0e⟩ := hr
        subst hr0e
        by_cases hc0 : (r0.date == i.date) = true
        · exfalso
          apply ha
          rw [List.mem_map]
          refine ⟨r0, hr0, ?_⟩
          rw [beq_iff_eq] at hc hc0
          rw [hc0, hc]
        · rw [if_neg hc0]
          exact hc0
      rw [hhead, htail]
      simp
    · have hhead : ((if a.date == i.date then i else a) : DateInfo) = a := if_neg hc
      have hat : t.any (fun r => r.date == i.date) = true := by
        rcases List.any_eq_true.mp h with ⟨r, hr, hrd⟩
        rcases List.mem_cons.mp hr with rfl | hrt
        · exact absurd hrd hc
        · exact List.any_eq_true.mpr ⟨r, hrt, hrd⟩
      rw [hhead, if_neg hc]
      exact ih ht hat

/-- Over a date-unique store, an upsert leaves exactly one record with
the upserted date. -/
theorem storeUpsert_count (s : List DateInfo) (i : DateInfo)
    (hnd : (s.map (fun r => r.date)).Nodup) :
    ((storeUpsert s i).filter (fun r => r.date == i.date)).length = 1 := by
  unfold storeUpsert
  split
  · rename_i h
    exact replace_filter_length s i hnd h
  · rename_i h
    rw [List.filter_append]
    have h1 : s.filter (fun r => r.date == i.date) = [] := by
      rw [List.filter_eq_nil_iff]
      intro r hr hc
      exact absurd (List.any_eq_true.mpr ⟨r, hr, hc⟩) h
    rw [h1]
    simp

/-- C8: a non-zero submit issues an upsert keyed by the selected day's
canonical date; applying that same upsert a second time leaves the store
unchanged, and (for a store with unique dates) the store ends up with
exactly one record for that canonical date, carrying the submitted
values. -/
theorem submit_idempotent (st : AppState) (sel : CivilDate) (off : Int)
    (store : List DateInfo) (hq mq : ℚ)
    (hh : parseFloat st.hours = some hq) (hm : parseFloat st.miles = some mq)
    (hnz : ¬(hq = 0 ∧ mq = 0))
    (hnd : (store.map (fun r => r.date)).Nodup) :
    applyRequest (applyRequest store (submitMutation st sel off))
        (submitMutation st sel off) =
      applyRequest store (submitMutation st sel off) ∧
    ((applyRequest store (submitMutation st sel off)).filter
        (fun r => r.date == canonicalOfLocalDay sel off)).length = 1 ∧
    (⟨canonicalOfLocalDay sel off, some hq, some mq⟩ : DateInfo) ∈
      applyRequest store (submitMutation st sel off) := by
  have hcond : ¬(parseFloat st.hours = some 0 ∧ parseFloat st.miles = some 0) := by
    rintro ⟨h1, h2⟩
    rw [hh] at h1
    rw [hm] at h2
    exact hnz ⟨Option.some.inj h1, Option.some.inj h2⟩
  have hmut : submitMutation st sel off =
      Request.setInfo ⟨canonicalOfLocalDay sel off, some hq, some mq⟩ := by
    simp [submitMutation, hcond, hh, hm]
    exact fun h1 h2 => hnz ⟨h1, h2⟩
  rw [hmut]
  simp only [applyRequest]
  exact ⟨storeUpsert_idem store ⟨canonicalOfLocalDay sel off, some hq, some mq⟩,
         storeUpsert_count store ⟨canonicalOfLocalDay sel off, some hq, some mq⟩ hnd,
         storeUpsert_mem store ⟨canonicalOfLocalDay sel off, some hq, some mq⟩⟩

/-- C8 witness: submitting "8"/"60" for the sample day twice onto the
concrete store equals submitting once, with exactly one stored record for
that canonical date, carrying 8 and 60. -/
theorem submit_idempotent_witness :
    applyRequest (applyRequest sampleInfos (submitMutation filledState sampleDay 0))
        (submitMutation filledState sampleDay 0) =
      applyRequest sampleInfos (submitMutation filledState sampleDay 0) ∧
    ((applyRequest sampleInfos (submitMutation filledState sampleDay 0)).filter
        (fun r => r.date == canonicalOfLocalDay sampleDay 0)).length = 1 ∧
    (⟨canonicalOfLocalDay sampleDay 0, some 8, some 60⟩ : DateInfo) ∈
      applyRequest sampleInfos (submitMutation filledState sampleDay 0) :=
  submit_idempotent filledState sampleDay 0 sampleInfos 8 60 (by decide) (by decide)
    (by decide) (by decide)
